import Mathlib

/-!
Shallow embedding of the envelope generator (`src/audio/Envelop.h`) and the
relevant parts of the chord and wavetable voice engines
(`src/plugins/audio/MultiEngine/ChordEngine.h`,
`src/plugins/audio/MultiEngine/Wavetable2Engine.h`).

Floating-point values are modelled as exact rationals (or reals where a
transcendental power appears); `unsigned int` counters as naturals, with the
C++ `data.size() - 1` (a `size_t` subtraction) rendered as truncated natural
subtraction, which agrees with the source for every nonempty table.
-/

namespace Zp

/-- One envelope stage: `Envelop::Data { float modulation; unsigned int sampleCount; }`. -/
structure Stage where
  modulation : ℚ
  sampleCount : ℕ
  deriving DecidableEq, Repr

/-- The mutable cursor of `Envelop`: the fields `sampleCount` and `index`
(both `unsigned int`, both initialised to 0). -/
structure Cursor where
  sampleCount : ℕ
  index : ℕ
  deriving DecidableEq, Repr

/-- Total lookup into the stage table; out-of-range reads (which would be
undefined behaviour in the C++) return a default stage.  The claims are all
stated on in-range cursors, where this agrees with `data[i]`. -/
def stageAt (data : List Stage) (i : ℕ) : Stage := data.getD i ⟨0, 0⟩

/-- `Envelop::isSustain`: `data[indexRef].sampleCount == 0.0f`. -/
def isSustain (data : List Stage) (i : ℕ) : Bool := (stageAt data i).sampleCount == 0

/-- The interpolation expression of `Envelop::next`:
`(data[i+1].modulation - data[i].modulation) * (sc / data[i].sampleCount) + data[i].modulation`. -/
def envVal (data : List Stage) (sc i : ℕ) : ℚ :=
  ((stageAt data (i + 1)).modulation - (stageAt data i).modulation)
      * ((sc : ℚ) / ((stageAt data i).sampleCount : ℚ))
    + (stageAt data i).modulation

/-- `Envelop::next(sampleCountRef, indexRef)`: increments the sample counter,
returns 0 at or past the last index, holds a sustain stage, advances the phase
(`setNextPhase`) when the counter has reached the stage duration, and
otherwise interpolates.  Returns the produced value and the updated cursor. -/
def next (data : List Stage) (c : Cursor) : ℚ × Cursor :=
  let sc := c.sampleCount + 1
  let i := c.index
  if data.length - 1 ≤ i then (0, ⟨sc, i⟩)
  else if isSustain data i then ((stageAt data i).modulation, ⟨sc, i⟩)
  else if (stageAt data i).sampleCount ≤ sc then
    if isSustain data (i + 1) then ((stageAt data (i + 1)).modulation, ⟨0, i + 1⟩)
    else (envVal data 0 (i + 1), ⟨0, i + 1⟩)
  else (envVal data sc i, ⟨sc, i⟩)

/-- `Envelop::peek(sampleCountRef, indexRef)`: value-only variant; the C++
body never writes through either reference, so it is a pure function of the
cursor.  Note it reads the counter as-is (`unsigned int sc = sampleCountRef;`),
without the pre-increment that `next` performs. -/
def peekVal (data : List Stage) (c : Cursor) : ℚ :=
  if data.length - 1 ≤ c.index then 0
  else if isSustain data c.index then (stageAt data c.index).modulation
  else if (stageAt data c.index).sampleCount ≤ c.sampleCount then
    if c.index + 1 < data.length then (stageAt data (c.index + 1)).modulation else 0
  else envVal data c.sampleCount c.index

/-- `Envelop::release(sampleCountRef, indexRef)`: in a sustain stage it calls
`setNextPhase` once; otherwise the loop `for (int i = indexRef; i < size-1; i++)`
visits every index of the window `[indexRef, size-1)` in order and, at every
sustain index `j` it meets, sets the cursor to `{0, j+1}` (the loop has no
`break`, so a later sustain index overwrites an earlier one). -/
def release (data : List Stage) (c : Cursor) : Cursor :=
  if isSustain data c.index then ⟨0, c.index + 1⟩
  else
    (List.range' c.index (data.length - 1 - c.index)).foldl
      (fun acc j => if isSustain data j then (⟨0, j + 1⟩ : Cursor) else acc) c

/-- `Envelop::reset(sampleCountRef, indexRef)`: both fields are set to 0. -/
def resetCursor : Cursor := ⟨0, 0⟩

/-- `Envelop::isSilent(indexRef)`: `indexRef >= data.size() - 1`. -/
def isSilent (data : List Stage) (c : Cursor) : Bool := data.length - 1 ≤ c.index

/-- Cursor after `n` successive calls to `next()`. -/
def nextN (data : List Stage) (c : Cursor) : ℕ → Cursor
  | 0 => c
  | n + 1 => (next data (nextN data c n)).2

/-- The whole `Envelop` object: the constructor argument `data` plus the two
counter fields with their in-class initialisers. -/
structure Envelop where
  data : List Stage
  index : ℕ
  sampleCount : ℕ
  deriving DecidableEq, Repr

/-- The C++ constructor `Envelop(std::vector<Data> data) : data(data) {}`:
it stores the table and performs no validation of any kind. -/
def mkEnvelop (d : List Stage) : Envelop := ⟨d, 0, 0⟩

/-- Bounds-checked variant of `next`: every `data[...]` subscript of the C++
body becomes an `Option`-returning lookup, so the result is `none` exactly
when some subscript of that execution is out of range. -/
def nextChecked (data : List Stage) (c : Cursor) : Option (ℚ × Cursor) :=
  let sc := c.sampleCount + 1
  let i := c.index
  if data.length - 1 ≤ i then some (0, ⟨sc, i⟩)
  else
    match data[i]? with
    | none => none
    | some s0 =>
      if s0.sampleCount = 0 then some (s0.modulation, ⟨sc, i⟩)
      else if s0.sampleCount ≤ sc then
        match data[i + 1]? with
        | none => none
        | some s1 =>
          if s1.sampleCount = 0 then some (s1.modulation, ⟨0, i + 1⟩)
          else
            match data[i + 2]? with
            | none => none
            | some s2 =>
              some ((s2.modulation - s1.modulation) * ((0 : ℚ) / (s1.sampleCount : ℚ))
                      + s1.modulation,
                    ⟨0, i + 1⟩)
      else
        match data[i + 1]? with
        | none => none
        | some s1 =>
          some ((s1.modulation - s0.modulation) * ((sc : ℚ) / (s0.sampleCount : ℚ))
                  + s0.modulation,
                ⟨sc, i⟩)

end Zp

namespace Zp

/-- **C1.** EnvelopeGenerator interpolation rule: for every stage table with at
least 2 stages and every cursor with `stageIndex` strictly below the last
index, `next()` first increments the local sample count `t`; if the current
stage is a sustain stage (duration 0) it returns its constant `m[i]`;
otherwise, when `t ≥ d[i]` the cursor advances to stage `i+1` with `t` reset
to 0 before that tick's value is computed — the new stage's constant if it is
a sustain stage, else the interpolation formula `m[i] + (m[i+1] - m[i]) * (t/d[i])`
evaluated at the advanced cursor (`t = 0`); when `t < d[i]` the formula is
evaluated in place.  At or past the last index the output is 0. -/
theorem c1_next_interpolation (data : List Stage) (c : Cursor) (h2 : 2 ≤ data.length) :
    (data.length - 1 ≤ c.index → (next data c).1 = 0) ∧
    (c.index < data.length - 1 →
      (isSustain data c.index = true →
        next data c = ((stageAt data c.index).modulation, ⟨c.sampleCount + 1, c.index⟩)) ∧
      (isSustain data c.index = false →
        ((stageAt data c.index).sampleCount ≤ c.sampleCount + 1 →
          next data c =
            (if isSustain data (c.index + 1) = true then
               (stageAt data (c.index + 1)).modulation
             else
               (stageAt data (c.index + 1)).modulation +
                 ((stageAt data (c.index + 2)).modulation
                     - (stageAt data (c.index + 1)).modulation) *
                   ((0 : ℚ) / ((stageAt data (c.index + 1)).sampleCount : ℚ)),
             ⟨0, c.index + 1⟩)) ∧
        (c.sampleCount + 1 < (stageAt data c.index).sampleCount →
          next data c =
            ((stageAt data c.index).modulation +
               ((stageAt data (c.index + 1)).modulation
                   - (stageAt data c.index).modulation) *
                 (((c.sampleCount + 1 : ℕ) : ℚ) / ((stageAt data c.index).sampleCount : ℚ)),
             ⟨c.sampleCount + 1, c.index⟩)))) := by
  constructor
  · intro hterm
    simp [next, hterm]
  · intro hlt
    have hnotle : ¬ data.length - 1 ≤ c.index := by omega
    refine ⟨?_, ?_⟩
    · intro hsus
      simp [next, hnotle, hsus]
    · intro hnsus
      refine ⟨?_, ?_⟩
      · intro hadv
        simp only [next, hnotle, if_false, hnsus, Bool.false_eq_true, if_pos hadv, if_neg hnotle]
        split
        · rfl
        · simp only [envVal, Prod.mk.injEq, and_true]
          push_cast
          ring
      · intro hstay
        have : ¬ (stageAt data c.index).sampleCount ≤ c.sampleCount + 1 := by omega
        simp only [next, if_neg hnotle, hnsus, Bool.false_eq_true, if_false, if_neg this,
          envVal, Prod.mk.injEq, and_true]
        push_cast
        ring

/-- Witness for `c1_next_interpolation` on the table `[(2,3),(5,0),(1,4)]` at
cursor `(0,0)`: a non-sustain stage mid-ramp returns the interpolated value. -/
theorem c1_next_interpolation_witness :
    next [⟨2, 3⟩, ⟨5, 0⟩, ⟨1, 4⟩] ⟨0, 0⟩ =
      ((stageAt [⟨2, 3⟩, ⟨5, 0⟩, ⟨1, 4⟩] 0).modulation +
        ((stageAt [⟨2, 3⟩, ⟨5, 0⟩, ⟨1, 4⟩] 1).modulation
            - (stageAt [⟨2, 3⟩, ⟨5, 0⟩, ⟨1, 4⟩] 0).modulation) *
          (((0 + 1 : ℕ) : ℚ) / ((stageAt [⟨2, 3⟩, ⟨5, 0⟩, ⟨1, 4⟩] 0).sampleCount : ℚ)),
       ⟨0 + 1, 0⟩) :=
  (((c1_next_interpolation [⟨2, 3⟩, ⟨5, 0⟩, ⟨1, 4⟩] ⟨0, 0⟩ (by decide)).2
      (by decide)).2 (by decide)).2 (by decide)

end Zp

namespace Zp

/-- The loop body of `Envelop::release` as a fold step. -/
def releaseStep (data : List Stage) (acc : Cursor) (j : ℕ) : Cursor :=
  if isSustain data j then ⟨0, j + 1⟩ else acc

theorem release_eq_foldl (data : List Stage) (c : Cursor)
    (h : isSustain data c.index = false) :
    release data c =
      (List.range' c.index (data.length - 1 - c.index)).foldl (releaseStep data) c := by
  simp only [release, h, Bool.false_eq_true, if_false]
  rfl

theorem releaseStep_foldl_of_no_sustain (data : List Stage) :
    ∀ (l : List ℕ) (acc : Cursor), (∀ j ∈ l, isSustain data j = false) →
      l.foldl (releaseStep data) acc = acc := by
  intro l
  induction l with
  | nil => intro acc _; rfl
  | cons a l ih =>
    intro acc hnone
    have ha : isSustain data a = false := hnone a (List.mem_cons_self a l)
    simp only [List.foldl_cons, releaseStep, ha, Bool.false_eq_true, if_false]
    exact ih acc fun j hj => hnone j (List.mem_cons_of_mem a hj)

theorem releaseStep_foldl_last_sustain (data : List Stage) :
    ∀ (n i : ℕ) (acc : Cursor) (j : ℕ), i ≤ j → j < i + n →
      isSustain data j = true →
      (∀ j', j < j' → j' < i + n → isSustain data j' = false) →
      (List.range' i n).foldl (releaseStep data) acc = ⟨0, j + 1⟩ := by
  intro n
  induction n with
  | zero => intro i acc j h1 h2 _ _; omega
  | succ n ih =>
    intro i acc j h1 h2 hsus hlast
    rw [List.range'_concat, List.foldl_append]
    rcases Nat.lt_or_ge j (i + n) with hj | hj
    · have hend : isSustain data (i + 1 * n) = false := by
        have := hlast (i + n) hj (by omega)
        simpa using this
      simp only [List.foldl_cons, List.foldl_nil, releaseStep, hend, Bool.false_eq_true,
        if_false]
      exact ih i acc j h1 hj hsus fun j' hgt hlt => hlast j' hgt (by omega)
    · have hje : j = i + n := by omega
      subst hje
      simp only [List.foldl_cons, List.foldl_nil, releaseStep, Nat.one_mul, hsus, if_true]

/-- Counterexample to **C2** as stated.  On the table
`[(0,1),(0,0),(0,0),(0,1)]` from cursor `(0,0)`, the first sustain stage at or
after the cursor and before the terminal stage is index 1, so advancing past
the *first* sustain stage would yield cursor `(0,2)`; the code instead ends at
`(0,3)` (the loop has no `break`, so the *last* sustain stage wins). -/
theorem c2_release_counterexample :
    isSustain [⟨0,1⟩, ⟨0,0⟩, ⟨0,0⟩, ⟨0,1⟩] 0 = false ∧
    isSustain [⟨0,1⟩, ⟨0,0⟩, ⟨0,0⟩, ⟨0,1⟩] 1 = true ∧
    release [⟨0,1⟩, ⟨0,0⟩, ⟨0,0⟩, ⟨0,1⟩] ⟨0,0⟩ = ⟨0,3⟩ ∧
    release [⟨0,1⟩, ⟨0,0⟩, ⟨0,0⟩, ⟨0,1⟩] ⟨0,0⟩ ≠ ⟨0,2⟩ := by
  decide

/-- **C2 (amended).** `release()`: if the current stage is a sustain stage,
the cursor advances exactly one stage (`stageIndex + 1`, counter reset to 0);
otherwise the scan covers `[stageIndex, size-1)` and advances past the *last*
sustain stage found there (the loop has no `break`); if the window holds no
sustain stage, `release()` is a no-op. -/
theorem c2_release_last_sustain (data : List Stage) (c : Cursor)
    (h2 : 2 ≤ data.length) (hi : c.index < data.length) :
    (isSustain data c.index = true → release data c = ⟨0, c.index + 1⟩) ∧
    (isSustain data c.index = false →
      ((∀ j, c.index ≤ j → j < data.length - 1 → isSustain data j = false) →
        release data c = c) ∧
      (∀ j, c.index ≤ j → j < data.length - 1 → isSustain data j = true →
        (∀ j', j < j' → j' < data.length - 1 → isSustain data j' = false) →
        release data c = ⟨0, j + 1⟩)) := by
  constructor
  · intro hsus
    simp [release, hsus]
  · intro hnsus
    constructor
    · intro hnone
      rw [release_eq_foldl data c hnsus]
      refine releaseStep_foldl_of_no_sustain data _ c fun j hj => ?_
      rw [List.mem_range'_1] at hj
      exact hnone j hj.1 (by omega)
    · intro j hcj hjlt hsus hlast
      rw [release_eq_foldl data c hnsus]
      refine releaseStep_foldl_last_sustain data _ c.index c j hcj (by omega) hsus ?_
      intro j' hgt hlt
      exact hlast j' hgt (by omega)

/-- Witness for `c2_release_last_sustain`: on `[(0,0),(0,3)]` at cursor
`(5,0)` the current stage is a sustain stage and `release` advances exactly
one stage. -/
theorem c2_release_last_sustain_witness :
    release [⟨0,0⟩, ⟨0,3⟩] ⟨5,0⟩ = ⟨0,1⟩ :=
  (c2_release_last_sustain [⟨0,0⟩, ⟨0,3⟩] ⟨5,0⟩ (by decide) (by decide)).1 (by decide)

end Zp


namespace Zp

/-- Counterexample to **C3** as stated.  On `[(0,2),(4,0),(0,5)]` at the
initial cursor `(0,0)`, `peek()` returns 0 (it reads the counter as-is), while
the immediately following `next()` pre-increments the counter and returns the
interpolated value 2; so `peek()` does not return the value the next call to
`next()` returns. -/
theorem c3_peek_counterexample :
    peekVal [⟨0,2⟩, ⟨4,0⟩, ⟨0,5⟩] ⟨0,0⟩ = 0 ∧
    (next [⟨0,2⟩, ⟨4,0⟩, ⟨0,5⟩] ⟨0,0⟩).1 = 2 ∧
    peekVal [⟨0,2⟩, ⟨4,0⟩, ⟨0,5⟩] ⟨0,0⟩ ≠ (next [⟨0,2⟩, ⟨4,0⟩, ⟨0,5⟩] ⟨0,0⟩).1 := by
  refine ⟨?_, ?_, ?_⟩ <;> norm_num [peekVal, next, envVal, stageAt, isSustain]

/-- **C3 (amended).** `peek()` never mutates the cursor (its embedding is a
pure value function, matching the C++ body, which writes through neither
reference), but its value lags `next()` by one sample: because `next()`
pre-increments the counter while `peek()` reads it as-is, `peek()` at counter
`t + 1` returns exactly what `next()` returns at counter `t` (same stage
index), for every stage table with at least 2 stages. -/
theorem c3_peek_is_shifted_next (data : List Stage) (c : Cursor)
    (h2 : 2 ≤ data.length) :
    peekVal data ⟨c.sampleCount + 1, c.index⟩ = (next data c).1 := by
  by_cases hterm : data.length - 1 ≤ c.index
  · simp [peekVal, next, hterm]
  · by_cases hsus : isSustain data c.index = true
    · simp [peekVal, next, hterm, hsus]
    · have hnsus : isSustain data c.index = false := by
        simpa using hsus
      by_cases hadv : (stageAt data c.index).sampleCount ≤ c.sampleCount + 1
      · have hi1 : c.index + 1 < data.length := by omega
        simp only [peekVal, next, hterm, if_false, hnsus, Bool.false_eq_true, hadv, if_true,
          hi1]
        split
        · simp
        · simp [envVal]
      · simp [peekVal, next, hterm, hnsus, hadv]

/-- Witness for `c3_peek_is_shifted_next` on `[(0,2),(4,0),(0,5)]` at
counter 0: `peek` at counter 1 equals the value of `next` at counter 0. -/
theorem c3_peek_is_shifted_next_witness :
    peekVal [⟨0,2⟩, ⟨4,0⟩, ⟨0,5⟩] ⟨0 + 1, 0⟩ = (next [⟨0,2⟩, ⟨4,0⟩, ⟨0,5⟩] ⟨0,0⟩).1 :=
  c3_peek_is_shifted_next [⟨0,2⟩, ⟨4,0⟩, ⟨0,5⟩] ⟨0,0⟩ (by decide)

/-- Counterexample to **C4** as stated.  On `[(0,2),(4,0)]` (first stage:
target `m0 = 0`, duration `d = 2`; next target `m1 = 4`), the very next
`next()` after `reset()` returns `m0 + (m1-m0)*1/d = 2`, not the first
stage's value `m0 = 0`: the counter is pre-incremented, so no call is ever
made at local tick 0. -/
theorem c4_reset_counterexample :
    (next [⟨0,2⟩, ⟨4,0⟩] resetCursor).1 = 2 ∧
    (next [⟨0,2⟩, ⟨4,0⟩] resetCursor).1 ≠ (stageAt [⟨0,2⟩, ⟨4,0⟩] 0).modulation := by
  refine ⟨?_, ?_⟩ <;> norm_num [next, envVal, stageAt, isSustain, resetCursor]

/-- **C4 (amended).** For a table whose first stage is `(m0, d)` with `d ≠ 0`
and second target `m1`: starting from the cursor produced by `reset()`, the
first `k` calls to `next()` (for `k + 1 < d`) leave the cursor at `(k, 0)`,
and the call made there — the `(k+1)`-st call, at post-increment local tick
`t = k + 1 ∈ [1, d)` — returns `m0 + (m1 - m0) * t / d`.  In particular the
very next call after `reset()` returns `m0 + (m1 - m0) / d`, which equals the
first stage's value `m0` only when `m1 = m0`. -/
theorem c4_ramp_after_reset (m0 m1 : ℚ) (d d2 : ℕ) (rest : List Stage) (k : ℕ)
    (hk : k + 1 < d) :
    nextN (⟨m0, d⟩ :: ⟨m1, d2⟩ :: rest) resetCursor k = ⟨k, 0⟩ ∧
    next (⟨m0, d⟩ :: ⟨m1, d2⟩ :: rest) ⟨k, 0⟩ =
      (m0 + (m1 - m0) * (((k + 1 : ℕ) : ℚ) / (d : ℚ)), ⟨k + 1, 0⟩) := by
  have hstep : ∀ j : ℕ, j + 1 < d →
      next (⟨m0, d⟩ :: ⟨m1, d2⟩ :: rest) ⟨j, 0⟩ =
        (m0 + (m1 - m0) * (((j + 1 : ℕ) : ℚ) / (d : ℚ)), ⟨j + 1, 0⟩) := by
    intro j hj
    have hsusf : isSustain (⟨m0, d⟩ :: ⟨m1, d2⟩ :: rest) 0 = false :=
      beq_eq_false_iff_ne.mpr (show d ≠ 0 by omega)
    simp only [next, List.length_cons, hsusf, Bool.false_eq_true, if_false]
    rw [if_neg (by omega : ¬ (rest.length + 1 + 1 - 1 ≤ (0:ℕ)))]
    rw [if_neg (show ¬ ((stageAt (⟨m0, d⟩ :: ⟨m1, d2⟩ :: rest) 0).sampleCount ≤ j + 1) from by
      show ¬ (d ≤ j + 1); omega)]
    simp only [envVal, Prod.mk.injEq, and_true]
    show (m1 - m0) * (((j + 1 : ℕ) : ℚ) / (d : ℚ)) + m0 = _
    ring
  have hcursor : ∀ j : ℕ, j < d →
      nextN (⟨m0, d⟩ :: ⟨m1, d2⟩ :: rest) resetCursor j = ⟨j, 0⟩ := by
    intro j
    induction j with
    | zero => intro _; rfl
    | succ n ih =>
      intro hlt
      have hn := ih (by omega)
      simp only [nextN, hn, hstep n (by omega)]
  exact ⟨hcursor k (by omega), hstep k hk⟩

/-- Witness for `c4_ramp_after_reset` at `m0 = 1`, `m1 = 5`, `d = 4`, `k = 1`:
after one call the cursor is `(1,0)` and the second call returns
`1 + (5-1) * 2/4 = 3`. -/
theorem c4_ramp_after_reset_witness :
    nextN (⟨1, 4⟩ :: ⟨5, 0⟩ :: [] : List Stage) resetCursor 1 = ⟨1, 0⟩ ∧
    next (⟨1, 4⟩ :: ⟨5, 0⟩ :: [] : List Stage) ⟨1, 0⟩ =
      (1 + (5 - 1) * (((1 + 1 : ℕ) : ℚ) / ((4 : ℕ) : ℚ)), ⟨1 + 1, 0⟩) :=
  c4_ramp_after_reset 1 5 4 0 [] 1 (by decide)

end Zp

namespace Zp

theorem releaseStep_foldl_index_lt (data : List Stage) (L : ℕ) :
    ∀ (l : List ℕ) (acc : Cursor), acc.index < L → (∀ j ∈ l, j + 1 < L) →
      (l.foldl (releaseStep data) acc).index < L := by
  intro l
  induction l with
  | nil => intro acc hacc _; exact hacc
  | cons a l ih =>
    intro acc hacc hmem
    simp only [List.foldl_cons]
    refine ih (releaseStep data acc a) ?_ fun j hj => hmem j (List.mem_cons_of_mem a hj)
    unfold releaseStep
    split
    · exact hmem a (List.mem_cons_self a l)
    · exact hacc

/-- Counterexample to **C5** as stated.  On the table `[(1,1),(0,0)]` (the
terminal stage is a sustain stage), the cursor `(0,1)` satisfies the invariant
`stageIndex < stages.size()`, yet `release()` takes the sustain branch and
increments `stageIndex` to 2 = `stages.size()`, violating the invariant. -/
theorem c5_invariant_counterexample :
    (⟨0,1⟩ : Cursor).index < ([⟨1,1⟩, ⟨0,0⟩] : List Stage).length ∧
    release [⟨1,1⟩, ⟨0,0⟩] ⟨0,1⟩ = ⟨0,2⟩ ∧
    ¬ (release [⟨1,1⟩, ⟨0,0⟩] ⟨0,1⟩).index < ([⟨1,1⟩, ⟨0,0⟩] : List Stage).length := by
  refine ⟨by decide, by decide, by decide⟩

/-- **C5 (amended).** For every stage table with at least 2 stages the
predicate `stageIndex < stages.size()` holds at the initial state and after
`reset()`, and is preserved by `next()` from every state satisfying it
(`peek()` performs no mutation at all); `release()` preserves it from every
such state *except* when the cursor already sits at the last index and that
terminal stage is a sustain stage (duration 0), in which case `release()`
pushes `stageIndex` one past the end.  Moreover once `stageIndex` has reached
the last index, `isSilent()` returns true and `next()` returns 0. -/
theorem c5_cursor_invariant (data : List Stage) (c : Cursor)
    (h2 : 2 ≤ data.length) (hi : c.index < data.length) :
    (mkEnvelop data).index < data.length ∧
    resetCursor.index < data.length ∧
    (next data c).2.index < data.length ∧
    (¬ (c.index = data.length - 1 ∧ isSustain data c.index = true) →
      (release data c).index < data.length) ∧
    (data.length - 1 ≤ c.index → isSilent data c = true ∧ (next data c).1 = 0) := by
  refine ⟨by simpa [mkEnvelop] using by omega, by simp [resetCursor]; omega, ?_, ?_, ?_⟩
  · simp only [next]
    split
    · exact hi
    · split
      · exact hi
      · split
        · split
          · show c.index + 1 < data.length
            omega
          · show c.index + 1 < data.length
            omega
        · exact hi
  · intro hexc
    by_cases hsus : isSustain data c.index = true
    · have hne : c.index ≠ data.length - 1 := fun h => hexc ⟨h, hsus⟩
      unfold release
      rw [if_pos hsus]
      show c.index + 1 < data.length
      omega
    · have hnsus : isSustain data c.index = false := by simpa using hsus
      rw [release_eq_foldl data c hnsus]
      refine releaseStep_foldl_index_lt data data.length _ c hi fun j hj => ?_
      rw [List.mem_range'_1] at hj
      omega
  · intro hterm
    constructor
    · simp [isSilent, hterm]
    · simp [next, hterm]

/-- Witness for `c5_cursor_invariant` on `[(1,2),(0,3)]` at cursor `(0,0)`:
all operations keep the stage index in bounds. -/
theorem c5_cursor_invariant_witness :
    (mkEnvelop [⟨1,2⟩, ⟨0,3⟩]).index < ([⟨1,2⟩, ⟨0,3⟩] : List Stage).length ∧
    resetCursor.index < ([⟨1,2⟩, ⟨0,3⟩] : List Stage).length ∧
    (next [⟨1,2⟩, ⟨0,3⟩] ⟨0,0⟩).2.index < ([⟨1,2⟩, ⟨0,3⟩] : List Stage).length ∧
    (¬ ((⟨0,0⟩ : Cursor).index = ([⟨1,2⟩, ⟨0,3⟩] : List Stage).length - 1 ∧
        isSustain [⟨1,2⟩, ⟨0,3⟩] (⟨0,0⟩ : Cursor).index = true) →
      (release [⟨1,2⟩, ⟨0,3⟩] ⟨0,0⟩).index < ([⟨1,2⟩, ⟨0,3⟩] : List Stage).length) ∧
    (([⟨1,2⟩, ⟨0,3⟩] : List Stage).length - 1 ≤ (⟨0,0⟩ : Cursor).index →
      isSilent [⟨1,2⟩, ⟨0,3⟩] ⟨0,0⟩ = true ∧ (next [⟨1,2⟩, ⟨0,3⟩] ⟨0,0⟩).1 = 0) :=
  c5_cursor_invariant [⟨1,2⟩, ⟨0,3⟩] ⟨0,0⟩ (by decide) (by decide)

end Zp

namespace Zp

/-- Following the claim's words only (for comparison with the source
constructor `mkEnvelop`): a construction that reports a configuration error
(`none`) for every table with fewer than 2 stages. -/
def mkEnvelopClaimed (d : List Stage) : Option Envelop :=
  if d.length < 2 then none else some (mkEnvelop d)

/-- Counterexample to **C9** as stated.  The C++ constructor
`Envelop(std::vector<Data> data) : data(data) {}` has no error path at all:
applied to the empty table (fewer than 2 stages) it returns an ordinary,
fully-formed object, where the claim requires the construction to signal a
configuration error (as `mkEnvelopClaimed` would). -/
theorem c9_construction_counterexample :
    mkEnvelop [] = ⟨[], 0, 0⟩ ∧ mkEnvelopClaimed [] = none := by
  refine ⟨rfl, rfl⟩

/-- **C9 (amended).** Construction performs no validation whatsoever: every
table, including those with fewer than 2 stages, is accepted and stored
unchanged with the cursor at `(0,0)`; and `next()` performs no per-tick size
check either — on a 1-stage table every call simply increments the counter
and returns 0. -/
theorem c9_no_construction_check (d : List Stage) (s : Stage) (c : Cursor) :
    mkEnvelop d = ⟨d, 0, 0⟩ ∧
    next [s] c = (0, ⟨c.sampleCount + 1, c.index⟩) := by
  refine ⟨rfl, ?_⟩
  simp [next]

/-- Counterexample to **C10** as stated.  On the table `[(1,1),(0,1)]`, whose
final stage is a non-sustain stage, the very first `next()` from the initial
cursor `(0,0)` advances into the final stage and then evaluates the
interpolation formula there, reading `data[2]` — one element past the end:
the bounds-checked embedding returns `none`. -/
theorem c10_next_oob_counterexample :
    nextChecked [⟨1,1⟩, ⟨0,1⟩] resetCursor = none := by
  decide

/-- **C10 (amended).** Whenever the final stage of a table with at least 2
stages is a sustain stage (duration 0) — the shape every envelope used by the
engines has — no element access of `next()` is out of bounds, from *any*
cursor state: the bounds-checked embedding returns `some` and agrees with the
total embedding.  (When the final stage is a non-sustain stage, the tick that
advances into it reads one element past the end, as the counterexample
shows.) -/
theorem c10_next_inbounds_of_sustain_final (data : List Stage) (c : Cursor)
    (h2 : 2 ≤ data.length)
    (hfin : (stageAt data (data.length - 1)).sampleCount = 0) :
    nextChecked data c = some (next data c) := by
  by_cases hterm : data.length - 1 ≤ c.index
  · simp [nextChecked, next, hterm]
  · have hl : c.index < data.length := by omega
    have e0 : data[c.index]? = some (stageAt data c.index) := by
      rw [List.getElem?_eq_getElem hl, stageAt, List.getD_eq_getElem data _ hl]
    have hl1 : c.index + 1 < data.length := by omega
    have e1 : data[c.index + 1]? = some (stageAt data (c.index + 1)) := by
      rw [List.getElem?_eq_getElem hl1, stageAt, List.getD_eq_getElem data _ hl1]
    by_cases hz : (stageAt data c.index).sampleCount = 0
    · have hsus : isSustain data c.index = true := beq_iff_eq.mpr hz
      simp [nextChecked, next, hterm, e0, hz, hsus]
    · have hnsus : isSustain data c.index = false := beq_eq_false_iff_ne.mpr hz
      by_cases hadv : (stageAt data c.index).sampleCount ≤ c.sampleCount + 1
      · by_cases hz1 : (stageAt data (c.index + 1)).sampleCount = 0
        · have hsus1 : isSustain data (c.index + 1) = true := beq_iff_eq.mpr hz1
          simp [nextChecked, next, hterm, e0, e1, hz, hz1, hadv, hnsus, hsus1]
        · have hsus1 : isSustain data (c.index + 1) = false := beq_eq_false_iff_ne.mpr hz1
          have hne : c.index + 1 ≠ data.length - 1 := by
            intro h
            exact hz1 (h ▸ hfin)
          have hl2 : c.index + 2 < data.length := by omega
          have e2 : data[c.index + 2]? = some (stageAt data (c.index + 2)) := by
            rw [List.getElem?_eq_getElem hl2]
            congr 1
            rw [stageAt, List.getD_eq_getElem data _ hl2]
          simp [nextChecked, next, hterm, e0, e1, e2, hz, hz1, hadv, hnsus, hsus1, envVal]
      · simp [nextChecked, next, hterm, e0, e1, hz, hadv, hnsus, envVal]

/-- Witness for `c10_next_inbounds_of_sustain_final` on `[(3,1),(0,0)]` at the
initial cursor: every access is in bounds and the checked and total
embeddings agree. -/
theorem c10_next_inbounds_of_sustain_final_witness :
    nextChecked [⟨3,1⟩, ⟨0,0⟩] ⟨0,0⟩ = some (next [⟨3,1⟩, ⟨0,0⟩] ⟨0,0⟩) :=
  c10_next_inbounds_of_sustain_final [⟨3,1⟩, ⟨0,0⟩] ⟨0,0⟩ (by decide) (by decide)

end Zp

namespace Zp

/-! ### ChordEngine (`src/plugins/audio/MultiEngine/ChordEngine.h`) -/

/-- `ChordEngine::noteOn`, held-note bookkeeping only: `heldNotes++`
(`heldNotes` is a C++ `int`, initially 0). -/
def noteOnHeld (h : ℤ) : ℤ := h + 1

/-- `ChordEngine::noteOff`: `if (heldNotes > 0) heldNotes--;` then the base
engine's amplitude-envelope release (`Engine::noteOff`) is issued iff
`heldNotes == 0` afterwards.  Returns the new counter and whether the release
was issued. -/
def noteOffHeld (h : ℤ) : ℤ × Bool :=
  let h2 := if 0 < h then h - 1 else h
  (h2, h2 = 0)

/-- Counter after `n` `noteOn` calls, starting from the initial value 0. -/
def noteOnRun : ℕ → ℤ
  | 0 => 0
  | n + 1 => noteOnHeld (noteOnRun n)

/-- Running `k` successive `noteOff` calls from counter `h`: final counter,
and whether any of the calls issued the underlying release. -/
def noteOffRun (h : ℤ) : ℕ → ℤ × Bool
  | 0 => (h, false)
  | k + 1 =>
    let p := noteOffHeld h
    let q := noteOffRun p.1 k
    (q.1, p.2 || q.2)

theorem noteOffRun_no_release (k : ℕ) :
    ∀ h : ℤ, (k : ℤ) < h → noteOffRun h k = (h - k, false) := by
  induction k with
  | zero => intro h _; simp [noteOffRun]
  | succ k ih =>
    intro h hk
    have h0 : (0 : ℤ) < h := by omega
    have hne : ¬ (h - 1 = 0) := by omega
    simp only [noteOffRun, noteOffHeld, if_pos h0, ih (h - 1) (by omega), decide_eq_false hne,
      Bool.false_or, Prod.mk.injEq, and_true]
    push_cast
    ring

/-- **C6.** ChordVoiceEngine held-note gating: `noteOn` increments the
held-note counter by one; `noteOff` decrements it, never below zero; the
underlying amplitude-envelope release is issued exactly when the counter
returns to zero.  Consequently, after `n` `noteOn` calls from the initial
state the counter is `n`; any `k < n` subsequent `noteOff` calls leave the
counter at `n - k` without ever issuing the release; and running all `n`
`noteOff` calls ends with the counter at zero, the release having been
issued (by the call that brought the counter to zero). -/
theorem c6_held_note_gating (n k : ℕ) (hn : 0 < n) (hk : k < n) :
    (∀ h : ℤ, noteOnHeld h = h + 1) ∧
    (∀ h : ℤ, 0 ≤ h → 0 ≤ (noteOffHeld h).1) ∧
    (∀ h : ℤ, (noteOffHeld h).2 = true ↔ (noteOffHeld h).1 = 0) ∧
    noteOnRun n = n ∧
    noteOffRun (noteOnRun n) k = ((n : ℤ) - k, false) ∧
    noteOffRun (noteOnRun n) n = (0, true) := by
  have hrun : ∀ m : ℕ, noteOnRun m = m := by
    intro m
    induction m with
    | zero => rfl
    | succ m ih => simp [noteOnRun, noteOnHeld, ih]
  have hall : ∀ m : ℕ, 0 < m → noteOffRun (m : ℤ) m = (0, true) := by
    intro m
    induction m with
    | zero => intro h; omega
    | succ m ih =>
      intro _
      rcases Nat.eq_zero_or_pos m with hm | hm
      · subst hm
        decide
      · have h0 : (0 : ℤ) < (m + 1 : ℕ) := by positivity
        have : ((m + 1 : ℕ) : ℤ) - 1 = (m : ℤ) := by push_cast; ring
        simp only [noteOffRun, noteOffHeld, if_pos h0, this, ih hm]
        have hne : ¬ (((m + 1 : ℕ) : ℤ) - 1 = 0) := by push_cast; omega
        simp [hne]
    
  refine ⟨fun h => rfl, ?_, ?_, hrun n, ?_, ?_⟩
  · intro h hh
    simp only [noteOffHeld]
    split <;> omega
  · intro h
    simp [noteOffHeld]
  · rw [hrun n]
    exact noteOffRun_no_release k (n : ℤ) (by exact_mod_cast hk)
  · rw [hrun n]
    exact hall n hn

/-- Witness for `c6_held_note_gating` at `n = 3`, `k = 2`: three `noteOn`
calls then two `noteOff` calls never issue the release; the third `noteOff`
does. -/
theorem c6_held_note_gating_witness :
    (∀ h : ℤ, noteOnHeld h = h + 1) ∧
    (∀ h : ℤ, 0 ≤ h → 0 ≤ (noteOffHeld h).1) ∧
    (∀ h : ℤ, (noteOffHeld h).2 = true ↔ (noteOffHeld h).1 = 0) ∧
    noteOnRun 3 = 3 ∧
    noteOffRun (noteOnRun 3) 2 = ((3 : ℤ) - 2, false) ∧
    noteOffRun (noteOnRun 3) 3 = (0, true) :=
  c6_held_note_gating 3 2 (by decide) (by decide)

end Zp

namespace Zp

/-- `ChordEngine::chordDefs`: the fixed table of semitone offsets, one row of
4 offsets per chord type (Major, Minor, Sus4, Power, Maj7, Min7). -/
def chordDefs : List (List ℤ) :=
  [[0, 4, 7, 12], [0, 3, 7, 12], [0, 5, 7, 12], [0, 7, 12, 19], [0, 4, 7, 11], [0, 3, 7, 10]]

/-- Modelled from the spec: the `CLAMP` macro comes from `helpers/math.h`,
which is not among the sources; the spec says out-of-range selections are
"clamped to valid bounds rather than rejected", i.e. the usual
clamp-to-interval. -/
def clampZ (x lo hi : ℤ) : ℤ := if x < lo then lo else if hi < x then hi else x

/-- The offsets row selected by `ChordEngine::noteOn`:
`chordDefs[CLAMP(ctype, 0, (int)chordDefs.size() - 1)]`. -/
def chordOffsets (ctype : ℤ) : List ℤ :=
  chordDefs.getD (clampZ ctype 0 ((chordDefs.length : ℤ) - 1)).toNat []

/-- The per-voice target-frequency assignment of `ChordEngine::noteOn`: for
each voice `v < cachedNumVoices`,
`targetFreq[v] = baseFreq * powf(2.0f, offsets[v] / 12.0f)`; other entries
keep their previous value. -/
noncomputable def noteOnTargetFreq (baseFreq : ℝ) (ctype : ℤ) (numVoices : ℕ)
    (old : ℕ → ℝ) (v : ℕ) : ℝ :=
  if v < numVoices then
    baseFreq * (2 : ℝ) ^ ((((chordOffsets ctype).getD v 0 : ℤ) : ℝ) / 12)
  else old v

/-- **C7.** ChordVoiceEngine target frequencies: the chord table is exactly
Major `{0,4,7,12}`, Minor `{0,3,7,12}`, Sus4 `{0,5,7,12}`, Power `{0,7,12,19}`,
Maj7 `{0,4,7,11}`, Min7 `{0,3,7,10}`; with chord type Major and 4 active
voices, `noteOn` sets the four target frequencies to
`baseFreq * {1, 2^(4/12), 2^(7/12), 2}`; in general every active sub-voice
`v` gets `baseFreq * 2^(offset[v]/12)`, and a chord selection outside
`[0, 5]` is clamped to that range rather than rejected. -/
theorem c7_chord_target_freqs (baseFreq : ℝ) (old : ℕ → ℝ) :
    chordDefs =
      [[0, 4, 7, 12], [0, 3, 7, 12], [0, 5, 7, 12],
       [0, 7, 12, 19], [0, 4, 7, 11], [0, 3, 7, 10]] ∧
    noteOnTargetFreq baseFreq 0 4 old 0 = baseFreq ∧
    noteOnTargetFreq baseFreq 0 4 old 1 = baseFreq * (2 : ℝ) ^ ((4 : ℝ) / 12) ∧
    noteOnTargetFreq baseFreq 0 4 old 2 = baseFreq * (2 : ℝ) ^ ((7 : ℝ) / 12) ∧
    noteOnTargetFreq baseFreq 0 4 old 3 = baseFreq * 2 ∧
    (∀ (ctype : ℤ) (numV v : ℕ), v < numV →
      noteOnTargetFreq baseFreq ctype numV old v =
        baseFreq * (2 : ℝ) ^ ((((chordOffsets ctype).getD v 0 : ℤ) : ℝ) / 12)) ∧
    (∀ ctype : ℤ, ctype < 0 → chordOffsets ctype = chordOffsets 0) ∧
    (∀ ctype : ℤ, 5 < ctype → chordOffsets ctype = chordOffsets 5) ∧
    (∀ ctype : ℤ, 0 ≤ ctype → ctype ≤ 5 → chordOffsets ctype = chordDefs.getD ctype.toNat []) := by
  refine ⟨rfl, ?_, ?_, ?_, ?_, ?_, ?_, ?_, ?_⟩
  · norm_num [noteOnTargetFreq, chordOffsets, chordDefs, clampZ]
  · norm_num [noteOnTargetFreq, chordOffsets, chordDefs, clampZ]
  · norm_num [noteOnTargetFreq, chordOffsets, chordDefs, clampZ]
  · norm_num [noteOnTargetFreq, chordOffsets, chordDefs, clampZ]
  · intro ctype numV v hv
    simp [noteOnTargetFreq, hv]
  · intro ctype h
    have h5 : ((chordDefs.length : ℤ) - 1) = 5 := by norm_num [chordDefs]
    simp [chordOffsets, clampZ, h5, h, show ¬ ((0:ℤ) < 0) from by omega,
      show ¬ ((5:ℤ) < 0) from by omega]
  · intro ctype h
    have h5 : ((chordDefs.length : ℤ) - 1) = 5 := by norm_num [chordDefs]
    simp [chordOffsets, clampZ, h5, h, show ¬ (ctype < 0) from by omega,
      show ¬ ((5:ℤ) < 5) from by omega, show ¬ ((5:ℤ) < 0) from by omega]
  · intro ctype h0 h5
    have hlen : ((chordDefs.length : ℤ) - 1) = 5 := by norm_num [chordDefs]
    simp [chordOffsets, clampZ, hlen, show ¬ (ctype < 0) from by omega,
      show ¬ ((5:ℤ) < ctype) from by omega]

/-- Witness for `c7_chord_target_freqs` at `baseFreq = 440`: the general
formula at voice 2 of 4, and clamping of the out-of-range selections `-3`
and `9`. -/
theorem c7_chord_target_freqs_witness :
    noteOnTargetFreq 440 1 4 (fun _ => 0) 2 =
      440 * (2 : ℝ) ^ ((((chordOffsets 1).getD 2 0 : ℤ) : ℝ) / 12) ∧
    chordOffsets (-3) = chordOffsets 0 ∧
    chordOffsets 9 = chordOffsets 5 ∧
    chordOffsets 4 = chordDefs.getD (4 : ℤ).toNat [] :=
  ⟨(c7_chord_target_freqs 440 (fun _ => 0)).2.2.2.2.2.1 1 4 2 (by decide),
   (c7_chord_target_freqs 440 (fun _ => 0)).2.2.2.2.2.2.1 (-3) (by decide),
   (c7_chord_target_freqs 440 (fun _ => 0)).2.2.2.2.2.2.2.1 9 (by decide),
   (c7_chord_target_freqs 440 (fun _ => 0)).2.2.2.2.2.2.2.2 4 (by decide) (by decide)⟩

end Zp

namespace Zp

/-! ### Wavetable2Engine (`src/plugins/audio/MultiEngine/Wavetable2Engine.h`) -/

/-- Modelled from the spec: the rational-valued `CLAMP` (same missing
`helpers/math.h` helper as `clampZ`), clamping a value to an interval. -/
def clampQ (x lo hi : ℚ) : ℚ := if x < lo then lo else if hi < x then hi else x

/-- The anti-alias cutoff computed in `Wavetable2Engine::setFreq`:
`noteRatio = (note - 36) / 60.0f` (the `uint8_t` note is promoted to `int`,
so the subtraction is a signed integer difference), then
`antiAliasCutoff = CLAMP(1.0f - noteRatio * 0.7f, 0.15f, 1.0f)`. -/
def antiAliasCutoffFor (note : ℕ) : ℚ :=
  let noteFrac : ℚ := ((((note : ℤ) - 36 : ℤ)) : ℚ) / 60
  clampQ (1 - noteFrac * (7 / 10)) (3 / 20) 1

theorem clampQ_le_hi (x lo hi : ℚ) (h : lo ≤ hi) : clampQ x lo hi ≤ hi := by
  unfold clampQ
  split_ifs <;> linarith

theorem lo_le_clampQ (x lo hi : ℚ) (h : lo ≤ hi) : lo ≤ clampQ x lo hi := by
  unfold clampQ
  split_ifs <;> linarith

theorem clampQ_mono (x y lo hi : ℚ) (h : lo ≤ hi) (hxy : x ≤ y) :
    clampQ x lo hi ≤ clampQ y lo hi := by
  unfold clampQ
  split_ifs <;> linarith

/-- **C8.** The Wavetable2Engine anti-alias cutoff is monotonically
non-increasing in the note number, always lies within `[0.15, 1.0]`
(`[3/20, 1]`), equals `1.0` at and below note 36, and equals `0.3` (`3/10`)
at note 96. -/
theorem c8_anti_alias_cutoff :
    (∀ n1 n2 : ℕ, n1 ≤ n2 → antiAliasCutoffFor n2 ≤ antiAliasCutoffFor n1) ∧
    (∀ n : ℕ, 3 / 20 ≤ antiAliasCutoffFor n ∧ antiAliasCutoffFor n ≤ 1) ∧
    (∀ n : ℕ, n ≤ 36 → antiAliasCutoffFor n = 1) ∧
    antiAliasCutoffFor 96 = 3 / 10 := by
  refine ⟨?_, ?_, ?_, ?_⟩
  · intro n1 n2 h
    unfold antiAliasCutoffFor
    refine clampQ_mono _ _ _ _ (by norm_num) ?_
    have hc : ((n1 : ℤ) : ℚ) ≤ ((n2 : ℤ) : ℚ) := by exact_mod_cast h
    push_cast at hc ⊢
    linarith
  · intro n
    exact ⟨lo_le_clampQ _ _ _ (by norm_num), clampQ_le_hi _ _ _ (by norm_num)⟩
  · intro n hn
    have hc : ((n : ℤ) : ℚ) ≤ 36 := by exact_mod_cast hn
    simp only [antiAliasCutoffFor, clampQ]
    split_ifs <;> push_cast at * <;> linarith
  · norm_num [antiAliasCutoffFor, clampQ]

/-- Witness for `c8_anti_alias_cutoff`: the cutoff at note 96 is no larger
than at note 60, the bounds hold at note 200, and the cutoff is 1 at
note 20. -/
theorem c8_anti_alias_cutoff_witness :
    antiAliasCutoffFor 96 ≤ antiAliasCutoffFor 60 ∧
    (3 / 20 ≤ antiAliasCutoffFor 200 ∧ antiAliasCutoffFor 200 ≤ 1) ∧
    antiAliasCutoffFor 20 = 1 ∧
    antiAliasCutoffFor 96 = 3 / 10 :=
  ⟨c8_anti_alias_cutoff.1 60 96 (by decide),
   c8_anti_alias_cutoff.2.1 200,
   c8_anti_alias_cutoff.2.2.1 20 (by decide),
   c8_anti_alias_cutoff.2.2.2⟩

end Zp
